import Mathlib

/-!
Verification of the price-monitor scan pipeline.

This file gives a shallow embedding of the core of the repository
(src/scraper.py, src/notifier.py, src/db.py, src/app.py, src/main.py)
and proves or refutes the specified properties about it.

Modelling conventions:
  * Python strings are `List Char` (Python `len` counts code points, as does
    `List.length`); `str.lower()` is modelled as ASCII lowering, which is
    exact for all inputs appearing in the claims.
  * Python `float` values are modelled as exact rationals `ℚ`.  IEEE-754
    rounding is abstracted away; all numeric literals appearing in the
    claims are small decimals for which the abstraction is faithful.
    `float(str)` is modelled on the grammar of finite decimal literals
    (sign, digits with underscore grouping, decimal point, exponent);
    the special values inf and nan are outside the model.
  * Fallible Python code is `Except`/`Option`; a caught exception is an
    `Except.error` consumed by the handler.
  * SQLite `TEXT` comparison under the default BINARY collation on ASCII
    strings is modelled as lexicographic comparison of `List Char` by
    code point.
-/

set_option allowUnsafeReducibility true in
attribute [semireducible] Rat.mul Rat.add Rat.sub Rat.inv Rat.ofScientific

namespace PriceMonitor

/-- Shorthand: the character list of a string literal. -/
def str (s : String) : List Char := s.data

/-- The apostrophe character (thousands separator in Swiss price strings). -/
def apos : Char := Char.ofNat 39

/-- Python `str.strip()` whitespace set, restricted to ASCII
(space, tab, linefeed, carriage return, vertical tab, form feed). -/
def isPyWs (c : Char) : Bool :=
  c = ' ' || c = Char.ofNat 9 || c = Char.ofNat 10 || c = Char.ofNat 13 ||
  c = Char.ofNat 11 || c = Char.ofNat 12

/-- Python `str.strip()`: drop whitespace from both ends. -/
def trimChars (l : List Char) : List Char :=
  ((l.dropWhile isPyWs).reverse.dropWhile isPyWs).reverse

/-- Python `"CHF" in`-free removal used by `_parse_price`:
`text.replace("CHF", "")`.  Both this and Python's `str.replace` scan left
to right, consume each match, and never rescan produced output, so for an
empty replacement they agree. -/
def removeCHF : List Char → List Char
  | 'C' :: 'H' :: 'F' :: rest => removeCHF rest
  | c :: rest => c :: removeCHF rest
  | [] => []

/-- `re.sub(r'\.-$', '', s)`: strip one trailing ".-" suffix (the anchored
pattern can match at most once). -/
def stripDotDash (l : List Char) : List Char :=
  match l.reverse with
  | '-' :: '.' :: rest => rest.reverse
  | _ => l

/-- The cleaning chain of `_parse_price` (src/scraper.py lines 197-198):
`text.replace(chr(39), "").replace(",", "").replace(" ", "").replace("CHF", "").strip()`
followed by `re.sub(r'\.-$', '', cleaned)`.  Single-character
`str.replace(c, "")` is a filter. -/
def cleanedPrice (t : List Char) : List Char :=
  let s1 := t.filter (fun c => c ≠ apos)
  let s2 := s1.filter (fun c => c ≠ ',')
  let s3 := s2.filter (fun c => c ≠ ' ')
  let s4 := removeCHF s3
  let s5 := trimChars s4
  stripDotDash s5

/-- Tail of a Python `digitpart`: digits, with single underscores allowed
between digits (`1_000`).  Returns the collected digits and the unconsumed
remainder. -/
def digitsTail : List Char → List Char × List Char
  | [] => ([], [])
  | c :: rest =>
    if c.isDigit then
      let p := digitsTail rest
      (c :: p.1, p.2)
    else if c = Char.ofNat 95 then
      match rest with
      | d :: rest2 =>
        if d.isDigit then
          let p := digitsTail rest2
          (d :: p.1, p.2)
        else ([], c :: rest)
      | [] => ([], [c])
    else ([], c :: rest)

/-- A Python `digitpart`: at least one digit, underscores allowed between
digits.  `none` when the input does not start with a digit. -/
def digitPart (l : List Char) : Option (List Char × List Char) :=
  match l with
  | c :: rest =>
    if c.isDigit then
      let p := digitsTail rest
      some (c :: p.1, p.2)
    else none
  | [] => none

/-- Numeric value of a list of decimal digit characters. -/
def natOfDigits (ds : List Char) : ℕ :=
  ds.foldl (fun acc c => acc * 10 + (c.toNat - 48)) 0

/-- Value of a parsed decimal literal: sign (±1), integer digits, fraction
digits, decimal exponent, built as an explicit normalized rational. -/
def decimalValue (sgn : ℤ) (intDs fracDs : List Char) (e : ℤ) : ℚ :=
  let m : ℕ := natOfDigits (intDs ++ fracDs)
  if 0 ≤ e then
    mkRat (sgn * (m * 10 ^ e.toNat : ℕ)) (10 ^ fracDs.length)
  else
    mkRat (sgn * m) (10 ^ fracDs.length * 10 ^ (-e).toNat)

/-- Optional exponent part then end of input. -/
def finishFloat (sgn : ℤ) (intDs fracDs rest : List Char) : Except Unit ℚ :=
  match rest with
  | [] => Except.ok (decimalValue sgn intDs fracDs 0)
  | e :: r =>
    if e = 'e' || e = 'E' then
      let signed : ℤ × List Char :=
        match r with
        | '+' :: r3 => (1, r3)
        | '-' :: r3 => (-1, r3)
        | _ => (1, r)
      match digitPart signed.2 with
      | some (eds, r3) =>
        if r3 = [] then
          Except.ok (decimalValue sgn intDs fracDs (signed.1 * (natOfDigits eds : ℤ)))
        else Except.error ()
      | none => Except.error ()
    else Except.error ()

/-- Python `float(str)` on finite decimal literals: optional surrounding
whitespace, optional sign, then `digitpart [. [digitpart]] | . digitpart`,
optionally followed by an exponent.  `Except.error` models the
`ValueError` raised on any other input. -/
def floatOfStr (t : List Char) : Except Unit ℚ :=
  let s := trimChars t
  let signed : ℤ × List Char :=
    match s with
    | '+' :: r => (1, r)
    | '-' :: r => (-1, r)
    | _ => (1, s)
  match digitPart signed.2 with
  | some (ds, r) =>
    match r with
    | '.' :: r2 =>
      match digitPart r2 with
      | some (fs, r3) => finishFloat signed.1 ds fs r3
      | none => finishFloat signed.1 ds [] r2
    | _ => finishFloat signed.1 ds [] r
  | none =>
    match signed.2 with
    | '.' :: r2 =>
      match digitPart r2 with
      | some (fs, r3) => finishFloat signed.1 [] fs r3
      | none => Except.error ()
    | _ => Except.error ()

/-- `_parse_price` (src/scraper.py lines 195-202): clean the text, call
`float`, and catch `ValueError` as `None`. -/
def parsePrice (t : List Char) : Option ℚ :=
  (floatOfStr (cleanedPrice t)).toOption

/-- Python `str.lower()`, restricted to ASCII (exact for all claim
inputs). -/
def toLowerChars (l : List Char) : List Char := l.map Char.toLower

/-- Python substring test `needle in hay` (left-to-right scan; the empty
needle is contained in everything). -/
def containsSub (needle : List Char) : List Char → Bool
  | [] => needle.isEmpty
  | c :: t => needle.isPrefixOf (c :: t) || containsSub needle t

/-- A watch rule as handed to the matcher: a row of the `watch_rules`
table (src/db.py lines 40-49).  `min_discount_percent` is optional only
because `_match_rules` reads it with `rule.get("min_discount_percent", 20)`. -/
structure WatchRule where
  id : ℤ
  rule_type : List Char
  value : List Char
  min_discount_percent : Option ℚ
deriving DecidableEq

/-- `rule.get("min_discount_percent", 20)`. -/
def ruleMin (r : WatchRule) : ℚ := r.min_discount_percent.getD 20

/-- `_match_rules` (src/scraper.py lines 173-192): collect
`(rule_id, min_discount)` for every rule whose threshold is met and whose
lowercased value is a substring of the lowercased manufacturer (brand
rules) or full name (keyword rules). -/
def matchRules (manufacturer fullName : List Char) (discountPct : ℚ) :
    List WatchRule → List (ℤ × ℚ)
  | [] => []
  | r :: rest =>
    let value := toLowerChars r.value
    let minDisc := ruleMin r
    if discountPct < minDisc then
      matchRules manufacturer fullName discountPct rest
    else if r.rule_type = str "brand" then
      if containsSub value (toLowerChars manufacturer) then
        (r.id, minDisc) :: matchRules manufacturer fullName discountPct rest
      else
        matchRules manufacturer fullName discountPct rest
    else if r.rule_type = str "keyword" then
      if containsSub value (toLowerChars fullName) then
        (r.id, minDisc) :: matchRules manufacturer fullName discountPct rest
      else
        matchRules manufacturer fullName discountPct rest
    else
      matchRules manufacturer fullName discountPct rest

/-- Reference predicate, following the spec words for a single rule: the
rule matches when the discount meets the threshold and the value test for
its kind succeeds. -/
def ruleMatches (manufacturer fullName : List Char) (discountPct : ℚ)
    (r : WatchRule) : Bool :=
  ruleMin r ≤ discountPct &&
    ((r.rule_type = str "brand" &&
        containsSub (toLowerChars r.value) (toLowerChars manufacturer)) ||
      (r.rule_type = str "keyword" &&
        containsSub (toLowerChars r.value) (toLowerChars fullName)))

/-- Round a rational to the nearest integer, ties to even (the rounding
of Python `format`, with IEEE binary representation abstracted away). -/
def roundHalfEven (q : ℚ) : ℤ :=
  let n := Rat.floor q
  let r := q - (n : ℚ)
  if r < mkRat 1 2 then n
  else if mkRat 1 2 < r then n + 1
  else if n % 2 = 0 then n else n + 1

/-- Decimal digit character. -/
def digitChar (n : ℕ) : Char := Char.ofNat (48 + n % 10)

/-- Insert a comma after every third character (input reversed digits). -/
def g3rev : List Char → List Char
  | a :: b :: c :: d :: rest => a :: b :: c :: ',' :: g3rev (d :: rest)
  | l => l

/-- Thousands grouping of an integer digit string. -/
def group3 (ds : List Char) : List Char := (g3rev ds.reverse).reverse

/-- Python format spec `,.2f`: fixed two decimals with comma thousands
grouping. -/
def formatFixed2 (q : ℚ) : List Char :=
  let n := roundHalfEven (q * 100)
  let m := n.natAbs
  (if n < 0 then [Char.ofNat 45] else []) ++
    group3 (Nat.toDigits 10 (m / 100)) ++
    ['.', digitChar (m % 100 / 10), digitChar (m % 10)]

/-- The price rendering of the scrapers: `f"CHF {value:,.2f}"`. -/
def chfFormat (q : ℚ) : List Char := str "CHF " ++ formatFixed2 q

/-- Python format spec `.0f`: fixed zero decimals. -/
def formatFixed0 (q : ℚ) : List Char :=
  let n := roundHalfEven q
  (if n < 0 then [Char.ofNat 45] else []) ++ Nat.toDigits 10 n.natAbs

/-- The discount rendering of the scrapers: `f"-{discount_pct:.0f}%"`. -/
def fmtDiscount (q : ℚ) : List Char := Char.ofNat 45 :: formatFixed0 q ++ ['%']

/-- A product dict as built by the scrapers (src/scraper.py lines
121-129): `url` and `shop` are plain strings with `""` playing the role
of "absent" exactly as in the source. -/
structure Product where
  name : List Char
  old_price : List Char
  new_price : List Char
  discount : List Char
  shop : List Char
  url : List Char
  matched_rule_id : Option ℤ
deriving DecidableEq

/-- A raw toppreise product card, as the DOM hands it to the per-card
loop of `scrape_best_prices` (src/scraper.py lines 75-153): the inner
text of the manufacturer/name/price elements (`none` = element absent)
and the card `href`. -/
structure Card where
  manufacturer : List Char
  name : List Char
  href : Option (List Char)
  oldPriceText : Option (List Char)
  newPriceText : Option (List Char)
deriving DecidableEq

/-- `BASE_URL` (src/scraper.py line 13). -/
def baseUrl : List Char := str "https://www.toppreise.ch"

/-- `full_name = f"{manufacturer} {name}".strip() if name else manufacturer`
(src/scraper.py line 84). -/
def fullNameOf (c : Card) : List Char :=
  if c.name ≠ [] then trimChars (c.manufacturer ++ ' ' :: c.name)
  else c.manufacturer

/-- `product_url = f"{BASE_URL}{href}" if href and href.startswith("/")
else (href or "")` (src/scraper.py line 91). -/
def productUrlOf (c : Card) : List Char :=
  match c.href with
  | some h => if [Char.ofNat 47].isPrefixOf h then baseUrl ++ h else h
  | none => []

/-- Parsed old price of a card: the element's inner text is stripped and
fed to `_parse_price` (src/scraper.py lines 94-98). -/
def oldValOf (c : Card) : Option ℚ :=
  c.oldPriceText.bind (fun t => parsePrice (trimChars t))

/-- Parsed current price of a card (src/scraper.py lines 100-105). -/
def newValOf (c : Card) : Option ℚ :=
  c.newPriceText.bind (fun t => parsePrice (trimChars t))

/-- One iteration of the card loop of `scrape_best_prices`
(src/scraper.py lines 75-153): the products contributed by one card.  In
rule mode (`rules` non-empty, the truthiness test of line 116) one
product per matching rule is appended; in legacy mode a single brand
filter and global threshold apply. -/
def processCard (rules : List WatchRule) (brandFilter : List Char)
    (minDiscountPercent : ℚ) (c : Card) : List Product :=
  let fullName := fullNameOf c
  if fullName = [] then []
  else
    match oldValOf c, newValOf c with
    | some oldV, some newV =>
      if oldV ≤ 0 then []
      else
        let discountPct := (oldV - newV) / oldV * 100
        if rules ≠ [] then
          (matchRules c.manufacturer fullName discountPct rules).map
            (fun rm =>
              ⟨fullName, chfFormat oldV, chfFormat newV, fmtDiscount discountPct,
                [], productUrlOf c, some rm.1⟩)
        else
          if brandFilter ≠ [] &&
              !containsSub (toLowerChars brandFilter) (toLowerChars c.manufacturer) then
            []
          else if discountPct < minDiscountPercent then []
          else
            [⟨fullName, chfFormat oldV, chfFormat newV, fmtDiscount discountPct,
              [], productUrlOf c, none⟩]
    | _, _ => []

/-- The whole scrape: the card loop appends each card's contribution in
order (a card that raises is skipped, contributing nothing). -/
def scrapeBestPrices (rules : List WatchRule) (brandFilter : List Char)
    (minDiscountPercent : ℚ) (cards : List Card) : List Product :=
  cards.flatMap (processCard rules brandFilter minDiscountPercent)

/-- One iteration of the entry loop of `scrape_preispirat_rss`
(src/scraper.py lines 224-280).  The regex extraction of the price
capture groups and of the shop name is abstracted as inputs (`newTxt` /
`oldTxt` are the captured price strings, `none` when the pattern did not
match; `shop` is the extracted shop).  `discount_pct` starts at the
sentinel `0.0` and is recomputed only when both prices are truthy and
the old price is positive. -/
def processRssEntry (rules : List WatchRule) (title link shop : List Char)
    (newTxt oldTxt : Option (List Char)) : List Product :=
  if title = [] then []
  else
    let newV := newTxt.bind parsePrice
    let oldV := oldTxt.bind parsePrice
    let discountPct : ℚ :=
      match oldV, newV with
      | some o, some n => if o ≠ 0 && n ≠ 0 && 0 < o then (o - n) / o * 100 else 0
      | _, _ => 0
    let oldStr := match oldV with
      | some o => if o = 0 then [] else chfFormat o
      | none => []
    let newStr := match newV with
      | some n => if n = 0 then [] else chfFormat n
      | none => []
    let discStr := if 0 < discountPct then fmtDiscount discountPct else []
    if rules ≠ [] then
      (matchRules title title discountPct rules).map
        (fun rm => ⟨title, oldStr, newStr, discStr, shop, link, some rm.1⟩)
    else
      [⟨title, oldStr, newStr, discStr, shop, link, none⟩]

/-- A `(product_url, price)` pair, the composite key of the alert
ledger. -/
abbrev AlertKey := List Char × List Char

/-- `p.get("url") or p["name"]`: the url when truthy (non-empty),
otherwise the name.  The scrapers always set the `"url"` key, so absence
and `""` coincide. -/
def urlOrName (p : Product) : List Char :=
  if p.url = [] then p.name else p.url

/-- The intra-scan dedup key of `scan_job` (src/app.py line 63):
`(p.get("url") or p["name"], p["new_price"])`. -/
def dedupKey (p : Product) : AlertKey := (urlOrName p, p.new_price)

/-- The cross-scan ledger key of `scan_job` (src/app.py lines 72-73),
as handed to `AlertDB.already_alerted`. -/
def ledgerKey (p : Product) : AlertKey := (urlOrName p, p.new_price)

/-- The dedup loop of `scan_job` (src/app.py lines 59-67), with the
`seen` set threaded explicitly. -/
def dedupAux (seen : List AlertKey) : List Product → List Product
  | [] => []
  | p :: rest =>
    if dedupKey p ∈ seen then dedupAux seen rest
    else p :: dedupAux (dedupKey p :: seen) rest

/-- The intra-scan dedup layer: keep the first occurrence of each key. -/
def dedupFirst (ps : List Product) : List Product := dedupAux [] ps

/-- Reference function, following the spec words: keep each entry, then
drop every later entry carrying the same key; discovery order is
preserved. -/
def keepFirst : List Product → List Product
  | [] => []
  | p :: rest =>
    p :: keepFirst (rest.filter (fun q => dedupKey q ≠ dedupKey p))
termination_by l => l.length
decreasing_by
  exact Nat.lt_succ_of_le (List.length_filter_le _ _)

/-- The cross-scan filter of `scan_job` (src/app.py lines 69-77) and of
`run_scan` (src/main.py lines 53-61): drop products whose key already has
an AlertRecord.  The ledger is the list of `(product_url, price)` pairs
in `alert_history`; `already_alerted` is membership (src/db.py lines
73-79). -/
def ledgerFilter (ledger : List AlertKey) (ps : List Product) : List Product :=
  ps.filter (fun p => decide (ledgerKey p ∉ ledger))

/-- An `alert_history` row as written by `record_alert` (src/db.py lines
81-91). -/
structure RecordedAlert where
  product_url : List Char
  price : List Char
  product_name : List Char
  discount : List Char
  rule_id : Option ℤ
deriving DecidableEq

/-- The row `scan_job` records for a product (src/app.py lines 95-103). -/
def recordOf (p : Product) : RecordedAlert :=
  ⟨urlOrName p, p.new_price, p.name, p.discount, p.matched_rule_id⟩

/-- The row `run_scan` records for a product (src/main.py line 79):
`db.record_alert(key_url, p["new_price"])`, leaving name, discount and
rule id at their defaults. -/
def recordOfMain (p : Product) : RecordedAlert :=
  ⟨urlOrName p, p.new_price, [], [], none⟩

/-- Observable outcome of one scan cycle. -/
structure CycleOut where
  /-- products surviving both dedup layers -/
  newProducts : List Product
  /-- the list handed to `send_telegram_alert` (`[]` when no send was
  attempted) -/
  notified : List Product
  /-- rows appended to `alert_history` -/
  recorded : List RecordedAlert
  /-- whether `cleanup_old` ran -/
  cleanedUp : Bool
deriving DecidableEq

/-- `scan_job` (src/app.py lines 32-107) from the point where the scraper
returned `ps`: early return on an empty result, intra-scan dedup,
cross-scan ledger filter, early return when nothing is new, a send
attempt whose failure is caught and logged (so `sendOk` influences
nothing downstream) or skipped when Telegram is unconfigured, then
unconditional recording and cleanup. -/
def scanJob (ps : List Product) (ledger : List AlertKey)
    (telegramConfigured sendOk : Bool) : CycleOut :=
  match ps with
  | [] => ⟨[], [], [], false⟩
  | _ :: _ =>
    let newPs := ledgerFilter ledger (dedupFirst ps)
    match newPs with
    | [] => ⟨[], [], [], false⟩
    | _ :: _ =>
      ⟨newPs, if telegramConfigured then newPs else [],
        newPs.map recordOf, true⟩

/-- `run_scan` (src/main.py lines 29-84) from the point where the scraper
returned `ps`: no intra-scan dedup, cross-scan ledger filter, then a send
whose failure makes the function return before recording and cleanup
(src/main.py lines 70-74). -/
def runScan (ps : List Product) (ledger : List AlertKey) (sendOk : Bool) :
    CycleOut :=
  match ps with
  | [] => ⟨[], [], [], false⟩
  | _ :: _ =>
    let newPs := ledgerFilter ledger ps
    match newPs with
    | [] => ⟨[], [], [], false⟩
    | _ :: _ =>
      if sendOk then ⟨newPs, newPs, newPs.map recordOfMain, true⟩
      else ⟨newPs, newPs, [], false⟩

/-- The header line of `format_message` (src/notifier.py line 9). -/
def msgHeader : List Char := str "🔥 <b>최저가 할인 알림!</b>\n"

/-- The lines `format_message` appends for one product (src/notifier.py
lines 11-18): a name line, a price line, an optional shop line, an
optional link line and a blank separator. -/
def messageLines (p : Product) : List (List Char) :=
  [str "📱 <b>" ++ p.name ++ str "</b>",
   str "💰 " ++ p.old_price ++ str " → " ++ p.new_price ++ str " (" ++
     p.discount ++ str ")"] ++
  (if p.shop ≠ [] then [str "🏪 " ++ p.shop] else []) ++
  (if p.url ≠ [] then
    [str "🔗 <a href=\"" ++ p.url ++ str "\">제품 링크</a>"] else []) ++
  [[]]

/-- `format_message` (src/notifier.py lines 8-20): the header, then the
per-product lines, joined with newlines. -/
def formatMessage (ps : List Product) : List Char :=
  List.intercalate (str "\n") (msgHeader :: ps.flatMap messageLines)

/-- `send_telegram_alert` (src/notifier.py lines 23-49), observed as the
ordered list of message texts handed to the transport: nothing for an
empty product list; the combined message when its length is within the
4096-character Telegram limit; otherwise one single-product message per
product, in order. -/
def telegramMessages (ps : List Product) : List (List Char) :=
  match ps with
  | [] => []
  | _ :: _ =>
    let message := formatMessage ps
    if message.length ≤ 4096 then [message]
    else ps.map (fun p => formatMessage [p])

/-- Scheduler state: how many timer-driven executions of the scan job and
how many manual-thread executions are currently in flight. -/
structure SchedState where
  timerRunning : ℕ
  manualRunning : ℕ
deriving DecidableEq

/-- Trigger and completion events of the two scan entry points. -/
inductive SchedEvent
  | timerFire
  | manualRun
  | timerDone
  | manualDone
deriving DecidableEq

/-- One scheduler step.  A timer firing is dropped while a timer-driven
instance is still in flight — `scan_job` is registered with
`max_instances=1` (src/app.py line 119), whose documented semantics the
spec restates as "if a cycle is still running when the next trigger
fires, the new trigger is a no-op (dropped, not queued)".  A manual
run-now request starts a daemon thread unconditionally (src/app.py lines
238-243); nothing guards it. -/
def schedStep (s : SchedState) : SchedEvent → SchedState
  | .timerFire =>
    if 1 ≤ s.timerRunning then s
    else { s with timerRunning := s.timerRunning + 1 }
  | .manualRun => { s with manualRunning := s.manualRunning + 1 }
  | .timerDone => { s with timerRunning := s.timerRunning - 1 }
  | .manualDone => { s with manualRunning := s.manualRunning - 1 }

/-- Run the scheduler from the idle state through a trace of events. -/
def schedRun (es : List SchedEvent) : SchedState :=
  es.foldl schedStep ⟨0, 0⟩

/-- Total number of concurrently executing scan cycles. -/
def concurrent (s : SchedState) : ℕ := s.timerRunning + s.manualRunning

/-- Lexicographic order on character lists by code point: SQLite BINARY
collation on ASCII TEXT values. -/
def strLt : List Char → List Char → Bool
  | [], [] => false
  | [], _ :: _ => true
  | _ :: _, [] => false
  | a :: as, b :: bs =>
    if a.toNat < b.toNat then true
    else if b.toNat < a.toNat then false
    else strLt as bs

/-- Two-digit zero-padded decimal rendering. -/
def twoDigits (n : ℕ) : List Char := [digitChar (n / 10), digitChar n]

/-- A calendar timestamp (UTC), second precision. -/
structure Stamp where
  year : ℕ
  month : ℕ
  day : ℕ
  hour : ℕ
  minute : ℕ
  second : ℕ
deriving DecidableEq

/-- The text SQLite stores for `CURRENT_TIMESTAMP` (the default of the
`alerted_at` column, src/db.py line 33): `YYYY-MM-DD HH:MM:SS` with a
space separator. -/
def sqliteTimestamp (t : Stamp) : List Char :=
  Nat.toDigits 10 t.year ++ [Char.ofNat 45] ++ twoDigits t.month ++
    [Char.ofNat 45] ++ twoDigits t.day ++ [' '] ++ twoDigits t.hour ++
    [':'] ++ twoDigits t.minute ++ [':'] ++ twoDigits t.second

/-- The text Python `datetime.isoformat()` produces for the cutoff
(src/db.py line 99): `YYYY-MM-DDTHH:MM:SS.ffffff` — a `T` separator and
a microsecond suffix. -/
def isoTimestamp (t : Stamp) (micro : ℕ) : List Char :=
  Nat.toDigits 10 t.year ++ [Char.ofNat 45] ++ twoDigits t.month ++
    [Char.ofNat 45] ++ twoDigits t.day ++ ['T'] ++ twoDigits t.hour ++
    [':'] ++ twoDigits t.minute ++ [':'] ++ twoDigits t.second ++
    ['.'] ++ twoDigits (micro / 10000) ++ twoDigits (micro / 100 % 100) ++
    twoDigits (micro % 100)

/-- Seconds elapsed since the start of the month, for comparing two
stamps inside one month. -/
def monthSeconds (t : Stamp) : ℕ :=
  ((t.day * 24 + t.hour) * 60 + t.minute) * 60 + t.second

/-- `cleanup_old` (src/db.py lines 94-104):
`DELETE FROM alert_history WHERE alerted_at < ?` with the cutoff bound to
`(utcnow() - timedelta(hours=hours)).isoformat()`.  Both operands are
TEXT, so SQLite compares them under BINARY collation; the retained rows
are those not strictly below the cutoff string. -/
def cleanupOld (rows : List (List Char)) (cutoffIso : List Char) :
    List (List Char) :=
  rows.filter (fun ts => !(strLt ts cutoffIso))

/-- A brand rule used in concrete instances of the theorems:
`{rule_type: "brand", value: "apple", min_discount_percent: 20}`. -/
def appleRule : WatchRule := ⟨1, str "brand", str "apple", some 20⟩

/-- A keyword rule with threshold 0, used in concrete instances. -/
def dealRule : WatchRule := ⟨7, str "keyword", str "deal", some 0⟩

/-- A concrete toppreise card used in concrete instances. -/
def card1 : Card :=
  ⟨str "Apple", str "iPhone 15", some (str "/p/iphone"),
    some (str "CHF 1'299.00"), some (str "1,039.20")⟩

/-- The same card with the thousands separator of the old-price text
written with a comma instead of an apostrophe. -/
def card2 : Card :=
  ⟨str "Apple", str "iPhone 15", some (str "/p/iphone"),
    some (str "CHF 1,299.00"), some (str "1039.20")⟩

/-- A card whose old-price text does not parse. -/
def cardBad : Card :=
  ⟨str "Apple", str "iPhone 15", some (str "/p/iphone"),
    some (str "N/A"), some (str "1,039.20")⟩

/-- A concrete matched product used in concrete instances. -/
def sampleP : Product :=
  ⟨str "Apple iPhone 15", str "CHF 1,299.00", str "CHF 1,039.20",
    str "-20%", [], str "https://www.toppreise.ch/p/iphone", some 1⟩

/-- A product whose name makes its single-product message exceed the
4096-character Telegram ceiling. -/
def bigP : Product :=
  ⟨List.replicate 4200 'a', str "CHF 1,299.00", str "CHF 1,039.20",
    str "-20%", [], [], some 1⟩

/-- Reference instant for the cleanup analysis: 2026-10-12 05:33:00 UTC. -/
def refStamp : Stamp := ⟨2026, 10, 12, 5, 33, 0⟩

/-- A record written 9 hours 33 minutes before `refStamp`. -/
def recStamp : Stamp := ⟨2026, 10, 11, 20, 0, 0⟩

/-- `refStamp` minus 24 hours: the cleanup cutoff instant. -/
def cutoffStamp : Stamp := ⟨2026, 10, 11, 5, 33, 0⟩

/-- C6: the price parser maps "1'299.00" to 1299.00, "3.84" to 3.84 and
"189.-" to 189.00, also with an optional CHF prefix, comma or apostrophe
thousands separators, and surrounding spaces; every input whose residue
after the cleaning chain is not a numeric literal yields the explicit
unparseable result `none`; the `ValueError` raised by `float` is always
caught, so no exception propagates to the caller. -/
theorem c6_parse_price :
    parsePrice (str "1'299.00") = some 1299 ∧
    parsePrice (str "3.84") = some (3.84 : ℚ) ∧
    parsePrice (str "189.-") = some 189 ∧
    parsePrice (str "CHF 1,299.00") = some 1299 ∧
    parsePrice (str " CHF 189.- ") = some 189 ∧
    parsePrice (str "CHF 3.84") = some (3.84 : ℚ) ∧
    parsePrice (str "abc") = none ∧
    (∀ t : List Char, floatOfStr (cleanedPrice t) = Except.error () →
      parsePrice t = none) := by
  have h384 : (3.84 : ℚ) = mkRat 384 100 := by norm_num [mkRat]
  refine ⟨by decide, ?_, by decide, by decide, by decide, ?_, by decide, ?_⟩
  · rw [h384]; decide
  · rw [h384]; decide
  · intro t h
    unfold parsePrice
    rw [h]
    rfl

/-- Witness for C6: a malformed residue is mapped to `none` by the
exception-catching branch. -/
theorem c6_parse_price_witness : parsePrice (str "x9z") = none :=
  c6_parse_price.2.2.2.2.2.2.2 (str "x9z") (by rfl)


/-- Helper: a single scheduler step preserves "at most one timer-driven
instance in flight". -/
theorem schedStep_timer_le (s : SchedState) (e : SchedEvent)
    (h : s.timerRunning ≤ 1) : (schedStep s e).timerRunning ≤ 1 := by
  cases e with
  | timerFire =>
    simp only [schedStep]
    split
    · exact h
    · simp only []
      omega
  | manualRun => simpa [schedStep] using h
  | timerDone =>
    simp only [schedStep]
    omega
  | manualDone => simpa [schedStep] using h

/-- Helper: the timer invariant holds along any trace. -/
theorem schedRun_aux (es : List SchedEvent) :
    ∀ s : SchedState, s.timerRunning ≤ 1 →
      (es.foldl schedStep s).timerRunning ≤ 1 := by
  induction es with
  | nil => intro s h; exact h
  | cons e rest ih =>
    intro s h
    exact ih (schedStep s e) (schedStep_timer_le s e h)

/-- C1 counterexample: a manual run-now request arriving while a
timer-driven cycle is in flight yields two concurrently executing scan
cycles — the manual trigger path is an unguarded `threading.Thread`, so
the single-flight guarantee does not hold jointly across the two trigger
paths. -/
theorem c1_counterexample :
    concurrent (schedRun [SchedEvent.timerFire, SchedEvent.manualRun]) = 2 ∧
    ¬ concurrent (schedRun [SchedEvent.timerFire, SchedEvent.manualRun]) ≤ 1 := by
  decide

/-- C1 (amended): the timer-driven trigger path alone is single-flight —
`max_instances=1` drops a timer firing while a timer-driven cycle is
still in flight, so along every event trace at most one timer-driven
execution is in flight.  Manual run-now requests are unguarded. -/
theorem c1_timer_single_flight (es : List SchedEvent) :
    (schedRun es).timerRunning ≤ 1 :=
  schedRun_aux es ⟨0, 0⟩ (by decide)

/-- C5: the cutoff really is 24 hours before the reference instant and
the record really is 9 h 33 min old — far newer than 24 hours — yet
`cleanup_old` deletes it: the stored `CURRENT_TIMESTAMP` text has a
space separator while the cutoff is rendered by `isoformat()` with a `T`
separator, and under BINARY collation a space sorts below `T`, so every
record dated on the cutoff's calendar day compares below the cutoff
string regardless of its time of day. -/
theorem c5_cleanup_deletes_recent :
    monthSeconds cutoffStamp + 24 * 3600 = monthSeconds refStamp ∧
    monthSeconds refStamp - monthSeconds recStamp = 34380 ∧
    34380 < 24 * 3600 ∧
    strLt (sqliteTimestamp recStamp) (isoTimestamp cutoffStamp 123456) = true ∧
    cleanupOld [sqliteTimestamp recStamp] (isoTimestamp cutoffStamp 123456) = [] := by
  decide

/-- C9: the batcher emits zero messages for an empty product list; one
combined message when the concatenation of all product blocks is within
the 4096-character ceiling; otherwise exactly one message per product, in
order — an all-or-nothing decision with no hybrid grouping. -/
theorem c9_batcher :
    telegramMessages [] = [] ∧
    (∀ ps : List Product, ps ≠ [] → (formatMessage ps).length ≤ 4096 →
      telegramMessages ps = [formatMessage ps]) ∧
    (∀ ps : List Product, ps ≠ [] → 4096 < (formatMessage ps).length →
      telegramMessages ps = ps.map (fun p => formatMessage [p])) := by
  refine ⟨rfl, ?_, ?_⟩
  · intro ps hne hle
    cases ps with
    | nil => exact absurd rfl hne
    | cons p rest => simp only [telegramMessages, if_pos hle]
  · intro ps hne hgt
    cases ps with
    | nil => exact absurd rfl hne
    | cons p rest => simp only [telegramMessages, if_neg (Nat.not_le.mpr hgt)]

/-- Helper: interspersing a separator keeps every original element. -/
theorem mem_intersperse_of_mem (sep a : List Char) :
    ∀ L : List (List Char), a ∈ L → a ∈ L.intersperse sep := by
  intro L
  induction L with
  | nil => intro h; exact absurd h (List.not_mem_nil a)
  | cons x tl ih =>
    intro h
    cases tl with
    | nil => simpa using h
    | cons y tl2 =>
      rcases List.mem_cons.mp h with h1 | h2
      · simp [List.intersperse, h1]
      · exact List.mem_cons_of_mem x (List.mem_cons_of_mem sep (ih h2))

/-- Helper: each line is at most as long as the whole joined message. -/
theorem line_length_le_intercalate (sep a : List Char)
    (L : List (List Char)) (h : a ∈ L) :
    a.length ≤ (List.intercalate sep L).length := by
  have h1 : a ∈ L.intersperse sep := mem_intersperse_of_mem sep a L h
  have h2 : List.intercalate sep L = (L.intersperse sep).flatten := rfl
  rw [h2, List.length_flatten]
  exact List.single_le_sum (fun y _ => Nat.zero_le y) a.length
    (List.mem_map_of_mem List.length h1)

/-- Helper: a product's name never exceeds the formatted message
holding it. -/
theorem name_length_le_formatMessage (p : Product) (ps : List Product)
    (hp : p ∈ ps) : p.name.length ≤ (formatMessage ps).length := by
  have hline : (str "📱 <b>" ++ p.name ++ str "</b>") ∈ messageLines p := by
    simp [messageLines]
  have hmem : (str "📱 <b>" ++ p.name ++ str "</b>") ∈
      msgHeader :: ps.flatMap messageLines :=
    List.mem_cons_of_mem _ (List.mem_flatMap.mpr ⟨p, hp, hline⟩)
  have hlen := line_length_le_intercalate (str "\n") _ _ hmem
  unfold formatMessage
  refine le_trans ?_ hlen
  simp only [List.length_append]
  omega

set_option maxRecDepth 8000 in
/-- Witness for C9: a short list is sent as one combined message, and a
pair of oversized products is split into one message per product. -/
theorem c9_batcher_witness :
    telegramMessages [sampleP] = [formatMessage [sampleP]] ∧
    telegramMessages [bigP, bigP] = [formatMessage [bigP], formatMessage [bigP]] :=
  ⟨c9_batcher.2.1 [sampleP] (by decide) (by decide),
   c9_batcher.2.2 [bigP, bigP] (by simp)
     (lt_of_lt_of_le
       (by rw [show bigP.name = List.replicate 4200 'a' from rfl,
             List.length_replicate]; norm_num)
       (name_length_le_formatMessage bigP [bigP, bigP]
         (List.mem_cons_self bigP [bigP])))⟩

/-- C2 counterexample: in `run_scan` (src/main.py) a cycle that reaches
notification with one new product and a failing send records nothing —
the `except` branch returns before the recording step, so recording is
conditional on notification success in this orchestrator. -/
theorem c2_counterexample :
    (runScan [sampleP] [] false).notified = [sampleP] ∧
    (runScan [sampleP] [] false).recorded = [] := by
  decide

/-- C2 (amended): in `scan_job` (src/app.py) the orchestrator records one
AlertRecord per surviving product whatever the send outcome and whether
or not the transport is configured; `run_scan` (src/main.py) instead
aborts before recording when the send fails. -/
theorem c2_recording_unconditional :
    (∀ (ps : List Product) (ledger : List AlertKey) (cfg ok : Bool),
      (scanJob ps ledger cfg ok).recorded =
        (scanJob ps ledger cfg ok).newProducts.map recordOf) ∧
    (∀ (ps : List Product) (ledger : List AlertKey) (cfg ok cfg2 ok2 : Bool),
      (scanJob ps ledger cfg ok).recorded = (scanJob ps ledger cfg2 ok2).recorded) := by
  constructor
  · intro ps ledger cfg ok
    cases ps with
    | nil => rfl
    | cons p rest =>
      simp only [scanJob]
      cases h : ledgerFilter ledger (dedupFirst (p :: rest)) <;> simp
  · intro ps ledger cfg ok cfg2 ok2
    cases ps with
    | nil => rfl
    | cons p rest =>
      simp only [scanJob]
      cases h : ledgerFilter ledger (dedupFirst (p :: rest)) <;> simp


/-- Helper: the dedup loop with explicit `seen` set equals the spec-level
keep-first function applied after discarding keys already seen. -/
theorem dedupAux_eq_keepFirst (ps : List Product) :
    ∀ seen : List AlertKey,
      dedupAux seen ps =
        keepFirst (ps.filter (fun p => decide (dedupKey p ∉ seen))) := by
  induction ps with
  | nil => intro seen; simp [dedupAux, keepFirst]
  | cons p rest ih =>
    intro seen
    by_cases h : dedupKey p ∈ seen
    · rw [show dedupAux seen (p :: rest) = dedupAux seen rest from by
        simp [dedupAux, h]]
      rw [ih seen]
      congr 1
      simp [List.filter_cons, h]
    · rw [show dedupAux seen (p :: rest) =
          p :: dedupAux (dedupKey p :: seen) rest from by simp [dedupAux, h]]
      rw [ih (dedupKey p :: seen)]
      have hf : (p :: rest).filter (fun q => decide (dedupKey q ∉ seen)) =
          p :: rest.filter (fun q => decide (dedupKey q ∉ seen)) := by
        simp [List.filter_cons, h]
      rw [hf, keepFirst]
      congr 1
      rw [List.filter_filter]
      congr 1
      apply List.filter_congr
      intro q _
      by_cases h1 : dedupKey q = dedupKey p
      · simp [h1, h]
      · by_cases h2 : dedupKey q ∈ seen
        · simp [h1, h2]
        · simp [h1, h2]

/-- Helper: the dedup loop output is a sublist of its input (discovery
order is preserved, entries are only dropped). -/
theorem dedupAux_sublist (ps : List Product) :
    ∀ seen : List AlertKey, (dedupAux seen ps).Sublist ps := by
  induction ps with
  | nil => intro seen; simp [dedupAux]
  | cons p rest ih =>
    intro seen
    by_cases h : dedupKey p ∈ seen
    · rw [show dedupAux seen (p :: rest) = dedupAux seen rest from by
        simp [dedupAux, h]]
      exact (ih seen).cons p
    · rw [show dedupAux seen (p :: rest) =
          p :: dedupAux (dedupKey p :: seen) rest from by simp [dedupAux, h]]
      exact (ih (dedupKey p :: seen)).cons₂ p

/-- C4 counterexample: `run_scan` (src/main.py) applies no intra-scan
dedup — two identical products in one cycle are both notified and both
recorded, where the claimed first-seen-wins layer would have kept
exactly one. -/
theorem c4_counterexample :
    (runScan [sampleP, sampleP] [] true).notified = [sampleP, sampleP] ∧
    (runScan [sampleP, sampleP] [] true).recorded =
      [recordOfMain sampleP, recordOfMain sampleP] ∧
    [sampleP, sampleP] ≠ [sampleP] := by
  decide

/-- C4 (amended): in `scan_job` (src/app.py) the intra-scan dedup keeps
exactly the first occurrence of each `(url-or-name, new_price)` key,
drops all later entries with the same key, preserves discovery order,
and is applied before the cross-scan ledger check; `run_scan`
(src/main.py) has no intra-scan dedup layer at all. -/
theorem c4_intra_scan_dedup :
    (∀ ps : List Product, dedupFirst ps = keepFirst ps) ∧
    (∀ ps : List Product, (dedupFirst ps).Sublist ps) ∧
    (∀ (ps : List Product) (ledger : List AlertKey) (cfg ok : Bool),
      (scanJob ps ledger cfg ok).newProducts =
        ledgerFilter ledger (dedupFirst ps)) := by
  refine ⟨?_, ?_, ?_⟩
  · intro ps
    unfold dedupFirst
    rw [dedupAux_eq_keepFirst]
    congr 1
    simp
  · intro ps
    exact dedupAux_sublist ps []
  · intro ps ledger cfg ok
    cases ps with
    | nil => rfl
    | cons p rest =>
      cases h : ledgerFilter ledger (dedupFirst (p :: rest)) with
      | nil => simp [scanJob, h]
      | cons q tl => simp [scanJob, h]

/-- C3: a product whose `(url-or-name, new_price)` key already has an
AlertRecord is never handed to the notifier by `scan_job`, and the
cross-scan ledger key is literally the same function of the product as
the intra-scan dedup key. -/
theorem c3_ledger_suppression :
    (∀ (ps : List Product) (ledger : List AlertKey) (cfg ok : Bool)
      (p : Product), ledgerKey p ∈ ledger →
        p ∉ (scanJob ps ledger cfg ok).notified) ∧
    (∀ p : Product, dedupKey p = ledgerKey p) := by
  constructor
  · intro ps ledger cfg ok p hmem
    cases ps with
    | nil => simp [scanJob]
    | cons a rest =>
      cases h : ledgerFilter ledger (dedupFirst (a :: rest)) with
      | nil => simp [scanJob, h]
      | cons q tl =>
        simp only [scanJob, h]
        cases cfg with
        | false => simp
        | true =>
          intro hin
          have hin2 : p ∈ ledgerFilter ledger (dedupFirst (a :: rest)) := by
            rw [h]; exact hin
          have hdec := (List.mem_filter.mp hin2).2
          exact of_decide_eq_true hdec hmem
  · intro p
    rfl

/-- Witness for C3: with the sample product's key already in the ledger,
a cycle that encounters it again sends no notification for it. -/
theorem c3_ledger_suppression_witness :
    sampleP ∉ (scanJob [sampleP] [ledgerKey sampleP] true true).notified :=
  c3_ledger_suppression.1 [sampleP] [ledgerKey sampleP] true true sampleP
    (List.mem_cons_self _ _)

/-- Helper: closed form of the card loop in rule mode — with both prices
parsed, a positive old price and a non-empty full name, the card
contributes exactly one product per matching rule. -/
theorem processCard_rules_eq (rules : List WatchRule) (bf : List Char)
    (md : ℚ) (c : Card) (o n : ℚ) (hr : rules ≠ [])
    (ho : oldValOf c = some o) (hn : newValOf c = some n)
    (hpos : 0 < o) (hfn : fullNameOf c ≠ []) :
    processCard rules bf md c =
      (matchRules c.manufacturer (fullNameOf c) ((o - n) / o * 100) rules).map
        (fun rm => ⟨fullNameOf c, chfFormat o, chfFormat n,
          fmtDiscount ((o - n) / o * 100), [], productUrlOf c, some rm.1⟩) := by
  simp only [processCard]
  rw [ho, hn]
  simp [hfn, not_le.mpr hpos, hr]

/-- Helper: the matcher is the filter of the per-rule predicate, mapped
to `(id, min_discount)` pairs, preserving rule order. -/
theorem matchRules_eq_filter (m fn : List Char) (d : ℚ) :
    ∀ rules : List WatchRule,
      matchRules m fn d rules =
        (rules.filter (ruleMatches m fn d)).map (fun r => (r.id, ruleMin r)) := by
  intro rules
  induction rules with
  | nil => rfl
  | cons r rest ih =>
    have hbk : ¬ (str "brand" = str "keyword") := by decide
    have hkb : ¬ (str "keyword" = str "brand") := by decide
    simp only [matchRules, List.filter_cons]
    by_cases h1 : d < ruleMin r
    · have hm : ruleMatches m fn d r = false := by
        simp [ruleMatches, decide_eq_false (not_le.mpr h1)]
      simp [h1, hm, ih]
    · have hled : ruleMin r ≤ d := not_lt.mp h1
      by_cases h2 : r.rule_type = str "brand"
      · by_cases h3 : containsSub (toLowerChars r.value) (toLowerChars m) = true
        · have hm : ruleMatches m fn d r = true := by
            simp [ruleMatches, hled, h2, h3]
          simp [h1, h2, h3, hm, ih]
        · have hm : ruleMatches m fn d r = false := by
            simp [ruleMatches, h2, h3, hbk]
          simp [h1, h2, h3, hm, ih]
      · by_cases h4 : r.rule_type = str "keyword"
        · by_cases h5 : containsSub (toLowerChars r.value) (toLowerChars fn) = true
          · have hm : ruleMatches m fn d r = true := by
              simp [ruleMatches, hled, h4, h5, h2, hkb]
            simp [h1, h2, h4, h5, hm, ih, hkb]
          · have hm : ruleMatches m fn d r = false := by
              simp [ruleMatches, h2, h4, h5, hkb]
            simp [h1, h2, h4, h5, hm, ih, hkb]
        · have hm : ruleMatches m fn d r = false := by
            simp [ruleMatches, h2, h4]
          simp [h1, h2, h4, hm, ih]

/-- C7 counterexample: the Preispirat RSS scraper passes a candidate
whose old and new prices both failed to parse into `_match_rules` with
the sentinel discount 0.0, and a threshold-0 keyword rule matches it —
the candidate is not excluded before matching. -/
theorem c7_counterexample :
    parsePrice (str "N/A") = none ∧
    processRssEntry [dealRule] (str "Super Deal bei MediaMarkt")
        (str "https://example.org/deal") (str "MediaMarkt")
        (some (str "N/A")) (some (str "N/A")) =
      [⟨str "Super Deal bei MediaMarkt", [], [], [], str "MediaMarkt",
        str "https://example.org/deal", some 7⟩] := by
  decide

/-- C7 (amended): in the toppreise scraper the discount is
`(old - new) / old * 100`, computed only when `old > 0`; a candidate
whose prices fail to parse or whose old price is non-positive is
excluded before matching.  In the Preispirat RSS scraper such candidates
are instead passed to matching with sentinel discount 0.0. -/
theorem c7_discount_eligibility :
    (∀ (rules : List WatchRule) (bf : List Char) (md : ℚ) (c : Card),
      oldValOf c = none ∨ newValOf c = none → processCard rules bf md c = []) ∧
    (∀ (rules : List WatchRule) (bf : List Char) (md : ℚ) (c : Card) (o : ℚ),
      oldValOf c = some o → o ≤ 0 → processCard rules bf md c = []) ∧
    (∀ (rules : List WatchRule) (bf : List Char) (md : ℚ) (c : Card) (o n : ℚ),
      rules ≠ [] → oldValOf c = some o → newValOf c = some n → 0 < o →
      fullNameOf c ≠ [] →
      processCard rules bf md c =
        (matchRules c.manufacturer (fullNameOf c) ((o - n) / o * 100) rules).map
          (fun rm => ⟨fullNameOf c, chfFormat o, chfFormat n,
            fmtDiscount ((o - n) / o * 100), [], productUrlOf c, some rm.1⟩)) := by
  refine ⟨?_, ?_, ?_⟩
  · intro rules bf md c h
    by_cases hf : fullNameOf c = []
    · simp [processCard, hf]
    · rcases h with h | h
      · simp [processCard, hf, h]
      · cases ho : oldValOf c with
        | none => simp [processCard, hf, h, ho]
        | some o => simp [processCard, hf, h, ho]
  · intro rules bf md c o ho hle
    by_cases hf : fullNameOf c = []
    · simp [processCard, hf]
    · cases hn : newValOf c with
      | none => simp [processCard, hf, ho, hn]
      | some n => simp [processCard, hf, ho, hn, hle]
  · intro rules bf md c o n hr ho hn hpos hfn
    exact processCard_rules_eq rules bf md c o n hr ho hn hpos hfn

/-- Witness for C7: a card with an unparseable old price contributes
nothing; a fully parsed card contributes via the matcher. -/
theorem c7_discount_eligibility_witness :
    processCard [appleRule] [] 20 cardBad = [] ∧
    processCard [appleRule] [] 20 card1 =
      (matchRules card1.manufacturer (fullNameOf card1)
        ((1299 - mkRat 5196 5) / 1299 * 100) [appleRule]).map
        (fun rm => ⟨fullNameOf card1, chfFormat 1299, chfFormat (mkRat 5196 5),
          fmtDiscount ((1299 - mkRat 5196 5) / 1299 * 100), [],
          productUrlOf card1, some rm.1⟩) :=
  ⟨c7_discount_eligibility.1 [appleRule] [] 20 cardBad (Or.inl (by decide)),
   c7_discount_eligibility.2.2 [appleRule] [] 20 card1 1299 (mkRat 5196 5)
     (by decide) (by decide) (by decide) (by decide) (by decide)⟩

/-- C8: the matching engine returns exactly the rules passing the
per-rule predicate (threshold met at full precision — equality passes —
and case-insensitive substring on manufacturer for Brand rules, on the
full name for Keyword rules); the boundary example matches at 20.0 and
not at 19.99; and the pipeline emits one product per matching rule, each
carrying that rule's id. -/
theorem c8_matching_engine :
    (∀ (m fn : List Char) (d : ℚ) (rules : List WatchRule),
      matchRules m fn d rules =
        (rules.filter (ruleMatches m fn d)).map (fun r => (r.id, ruleMin r))) ∧
    matchRules (str "Apple") (str "Apple iPhone") 20 [appleRule] = [(1, 20)] ∧
    matchRules (str "Apple") (str "Apple iPhone") (19.99 : ℚ) [appleRule] = [] ∧
    (∀ (rules : List WatchRule) (bf : List Char) (md : ℚ) (c : Card) (o n : ℚ),
      rules ≠ [] → oldValOf c = some o → newValOf c = some n → 0 < o →
      fullNameOf c ≠ [] →
      (processCard rules bf md c).map (fun p => p.matched_rule_id) =
        (matchRules c.manufacturer (fullNameOf c) ((o - n) / o * 100) rules).map
          (fun rm => some rm.1)) := by
  refine ⟨fun m fn d rules => matchRules_eq_filter m fn d rules, ?_, ?_, ?_⟩
  · decide
  · decide
  · intro rules bf md c o n hr ho hn hpos hfn
    rw [processCard_rules_eq rules bf md c o n hr ho hn hpos hfn, List.map_map]
    rfl

/-- Witness for C8: on a concrete card and the apple brand rule the
pipeline's products carry exactly the matched rule ids. -/
theorem c8_matching_engine_witness :
    (processCard [appleRule] [] 20 card1).map (fun p => p.matched_rule_id) =
      (matchRules card1.manufacturer (fullNameOf card1)
        ((1299 - mkRat 5196 5) / 1299 * 100) [appleRule]).map
        (fun rm => some rm.1) :=
  c8_matching_engine.2.2.2 [appleRule] [] 20 card1 1299 (mkRat 5196 5)
    (by decide) (by decide) (by decide) (by decide) (by decide)

/-- C10: every product the toppreise card loop emits renders its prices
with `chfFormat` applied to the parsed numeric value; two cards equal up
to price-text formatting produce products with identical
`(url-or-name, new_price)` keys; and the two differently formatted
spellings of 1299.00 parse equal and render as "CHF 1,299.00". -/
theorem c10_canonical_price_keys :
    (∀ (rules : List WatchRule) (bf : List Char) (md : ℚ) (c : Card) (o n : ℚ),
      rules ≠ [] → oldValOf c = some o → newValOf c = some n → 0 < o →
      fullNameOf c ≠ [] →
      ∀ p ∈ processCard rules bf md c,
        p.old_price = chfFormat o ∧ p.new_price = chfFormat n) ∧
    (∀ (rules : List WatchRule) (bf : List Char) (md : ℚ) (c₁ c₂ : Card)
      (o₁ n₁ o₂ n₂ : ℚ),
      rules ≠ [] →
      oldValOf c₁ = some o₁ → newValOf c₁ = some n₁ → 0 < o₁ →
      oldValOf c₂ = some o₂ → newValOf c₂ = some n₂ → 0 < o₂ →
      c₁.manufacturer = c₂.manufacturer → c₁.name = c₂.name →
      c₁.href = c₂.href → fullNameOf c₁ ≠ [] → n₁ = n₂ →
      ∀ p₁ ∈ processCard rules bf md c₁, ∀ p₂ ∈ processCard rules bf md c₂,
        dedupKey p₁ = dedupKey p₂) ∧
    (parsePrice (str "1'299.00") = parsePrice (str "1,299.00") ∧
      chfFormat 1299 = str "CHF 1,299.00") := by
  have hmem : ∀ (rules : List WatchRule) (bf : List Char) (md : ℚ) (c : Card)
      (o n : ℚ), rules ≠ [] → oldValOf c = some o → newValOf c = some n →
      0 < o → fullNameOf c ≠ [] →
      ∀ p ∈ processCard rules bf md c, ∃ rid : ℤ,
        p = ⟨fullNameOf c, chfFormat o, chfFormat n,
          fmtDiscount ((o - n) / o * 100), [], productUrlOf c, some rid⟩ := by
    intro rules bf md c o n hr ho hn hpos hfn p hp
    rw [processCard_rules_eq rules bf md c o n hr ho hn hpos hfn] at hp
    rcases List.mem_map.mp hp with ⟨rm, _, rfl⟩
    exact ⟨rm.1, rfl⟩
  refine ⟨?_, ?_, by decide, by decide⟩
  · intro rules bf md c o n hr ho hn hpos hfn p hp
    rcases hmem rules bf md c o n hr ho hn hpos hfn p hp with ⟨rid, rfl⟩
    exact ⟨rfl, rfl⟩
  · intro rules bf md c₁ c₂ o₁ n₁ o₂ n₂ hr ho₁ hn₁ hp₁ ho₂ hn₂ hp₂ hman hnam
      hhref hfn₁ hn12 p₁ hm₁ p₂ hm₂
    have heqfn : fullNameOf c₁ = fullNameOf c₂ := by
      unfold fullNameOf
      rw [hman, hnam]
    have hequrl : productUrlOf c₁ = productUrlOf c₂ := by
      unfold productUrlOf
      rw [hhref]
    have hfn₂ : fullNameOf c₂ ≠ [] := heqfn ▸ hfn₁
    rcases hmem rules bf md c₁ o₁ n₁ hr ho₁ hn₁ hp₁ hfn₁ p₁ hm₁ with ⟨r₁, rfl⟩
    rcases hmem rules bf md c₂ o₂ n₂ hr ho₂ hn₂ hp₂ hfn₂ p₂ hm₂ with ⟨r₂, rfl⟩
    simp [dedupKey, urlOrName, heqfn, hequrl, hn12]

/-- Witness for C10: the concrete card's product renders both prices
with `chfFormat` of the parsed values. -/
theorem c10_canonical_price_keys_witness :
    sampleP.old_price = chfFormat 1299 ∧
      sampleP.new_price = chfFormat (mkRat 5196 5) :=
  c10_canonical_price_keys.1 [appleRule] [] 20 card1 1299 (mkRat 5196 5)
    (by decide) (by decide) (by decide) (by decide) (by decide) sampleP
    (by decide)

end PriceMonitor
